import Mathlib

/-!
# Verification of the GDP extract-transform-load pipeline

Shallow embedding of `src/extract_transform_load.ipynb`.

Python dicts are modelled as insertion-ordered association lists
(`List (String × α)`) with in-place update on re-insertion, matching
CPython dict semantics.  Numeric cell texts are carried as exact
rationals (`ℚ`); the float64 value path of the source — the grid is
multiplied in float64 and stored through `astype(int)` into int64 — is
modelled by `toFloat64` (round-to-nearest-even binary64), `fmul64` and
`toInt64`, with `roundHalfEven` for `numpy.round`'s half-to-even
rounding (`DataFrame.round(0)`).  Fallible operations (subscript
`KeyError`, `list.index` `ValueError`, `AttributeError` on a missing
anchor) are modelled with `Option`.
-/

namespace ETL

/-- Python dict lookup `d[k]` (as `Option`): first entry with the key. -/
def lookupD {α : Type} (d : List (String × α)) (k : String) : Option α :=
  (d.find? (fun kv => kv.1 == k)).map Prod.snd

/-- Python dict insertion `d[k] = v`: update in place if the key is
present (keeping its position), else append at the end. -/
def insertD {α : Type} : List (String × α) → String → α → List (String × α)
  | [], k, v => [(k, v)]
  | kv :: rest, k, v => if kv.1 = k then (k, v) :: rest else kv :: insertD rest k v

/-! ## KeyDeriver: `get_acronym` (notebook cell 4)

`acronym = ''.join(word[0] for word in agency.split())`.
`str.split()` with no argument splits on runs of whitespace and drops
empty pieces; `wordsAux` implements exactly that. -/

/-- Accumulating word splitter: `cur` holds the (reversed) current word. -/
def wordsAux : List Char → List Char → List (List Char)
  | [], cur => if cur.isEmpty then [] else [cur.reverse]
  | c :: rest, cur =>
    if c.isWhitespace then
      if cur.isEmpty then wordsAux rest [] else cur.reverse :: wordsAux rest []
    else wordsAux rest (c :: cur)

/-- `s.split()` of Python: whitespace-separated words, empties dropped. -/
def words (l : List Char) : List (List Char) := wordsAux l []

/-- `get_acronym`: first character of every word, concatenated. -/
def get_acronym (agency : String) : String :=
  String.mk ((words agency.data).map (fun w => w.headD ' '))

/-! ## TableDecomposer: `get_gdps` (notebook cell 5)

The parsed HTML is modelled only as deep as the code navigates it:
the wikitable node exposes the list of `tbody` sub-tables reached by
`find_all('tr')[1].find_all('tbody')`; a row exposes its `td` cells;
a cell exposes its trimmed-on-demand text and the text of its first
anchor child, if any (`find('a')` returns `None` when absent, which
makes `.text` raise — modelled as `Option`). -/

/-- One `td` cell: `text` is `cols[i].text`, `anchorText` is
`cols[i].find('a').text` when an anchor child exists. -/
structure Cell where
  anchorText : Option String
  text : String
deriving Repr, DecidableEq, Inhabited

/-- One `tr` row with its `td` cells. -/
structure HRow where
  tds : List Cell
deriving Repr, DecidableEq, Inhabited

/-- One `tbody` sub-table with its `tr` rows. -/
structure SubTable where
  rows : List HRow
deriving Repr, DecidableEq, Inhabited

/-- The `wikitable` node, reduced to the parts `get_gdps` reads. -/
structure GdpTables where
  bodies : List SubTable
deriving Repr, DecidableEq, Inhabited

/-- The module-level state `get_gdps` actually reads: the parsed table
`gdptablestext` and the discovered `acronyms` list. -/
structure Globals where
  gdptablestext : GdpTables
  acronyms : List String
deriving Repr, DecidableEq, Inhabited

/-- `len(cols) == 3`: the row qualifies as a data row. -/
def isDataRow (r : HRow) : Bool := r.tds.length == 3

/-- `cols[1].find('a').text.strip()` for a qualifying row. -/
def rowName (r : HRow) : String := (((r.tds.getD 1 default).anchorText).getD "").trim

/-- `cols[2].text.strip()` for a qualifying row. -/
def rowValue (r : HRow) : String := ((r.tds.getD 2 default).text).trim

/-- A row on which the source cannot raise: either it is skipped
(`len(cols) != 3`) or its name cell has an anchor child. -/
def rowSafe (r : HRow) : Bool :=
  if r.tds.length = 3 then ((r.tds.getD 1 default).anchorText).isSome else true

/-- The dictionary built from one sub-table's qualifying rows. -/
def extractBody (body : SubTable) : List (String × String) :=
  body.rows.foldl
    (fun d r => if isDataRow r then insertD d (rowName r) (rowValue r) else d) []

/-- `get_gdps(htmltext, acronym)`.  The `htmltext` parameter is accepted
and ignored, exactly as in the source, which reads only the globals.
`none` models the source raising (`acronym` absent from `acronyms`,
sub-table index out of range, or an anchor-less qualifying row). -/
def get_gdps (g : Globals) (htmltext : String) (acronym : String) :
    Option (List (String × String)) :=
  (g.acronyms.findIdx? (fun x => x == acronym)).bind fun idx =>
    g.gdptablestext.bodies[idx]?.bind fun body =>
      if body.rows.all rowSafe then some (extractBody body) else none

/-! ## RateNormalizer: `get_exchange_rates` (notebook cell 8)

`rates = {re.sub(r'^(USD)', r'', k): v for k, v in rates.items()}`:
one leading occurrence of `USD` is deleted from each key; the dict
comprehension inserts left to right. -/

/-- `re.sub(r'^(USD)', '', k)` on the character list of `k`. -/
def stripUSDChars (l : List Char) : List Char :=
  if l.take 3 = ['U', 'S', 'D'] then l.drop 3 else l

/-- `re.sub(r'^(USD)', '', k)`. -/
def stripUSD (k : String) : String := String.mk (stripUSDChars k.data)

/-- The key-normalization core of `get_exchange_rates`, applied to the
`quotes` mapping of the API response. -/
def get_exchange_rates (quotes : List (String × ℚ)) : List (String × ℚ) :=
  quotes.foldl (fun acc kv => insertD acc (stripUSD kv.1) kv.2) []

/-! ## NumericTransformer: `transform_gdps` (notebook cell 9) -/

/-- `df.replace(',', '', regex=True)` on one cell: delete every comma. -/
def stripCommas (s : String) : String :=
  String.mk (s.data.filter (fun c => c != ','))

/-- Value of a digit run, most significant first. -/
def digitsVal (l : List Char) : ℕ :=
  l.foldl (fun n c => 10 * n + (c.toNat - 48)) 0

/-- A non-empty all-digit run. -/
def allDigits (l : List Char) : Bool := !l.isEmpty && l.all Char.isDigit

/-- Unsigned decimal numeral: digits with at most one decimal point. -/
def parseUnsignedChars (l : List Char) : Option ℚ :=
  if l.contains '.' then
    let ip := l.takeWhile (fun c => c != '.')
    let fp := (l.dropWhile (fun c => c != '.')).drop 1
    if fp.contains '.' then none
    else if ip.isEmpty && fp.isEmpty then none
    else if ip.all Char.isDigit && fp.all Char.isDigit then
      some ((digitsVal ip : ℚ) + (digitsVal fp : ℚ) / ((10 : ℚ) ^ fp.length))
    else none
  else if allDigits l then some ((digitsVal l : ℚ)) else none

/-- `pd.to_numeric(·, errors='coerce')` on one cell text, restricted to
plain signed decimal numerals (the only shapes the pipeline feeds it);
failure is `none` (the NaN marker), never an exception. -/
def to_numeric (s : String) : Option ℚ :=
  match s.data with
  | '-' :: rest => (parseUnsignedChars rest).map (fun q => -q)
  | '+' :: rest => parseUnsignedChars rest
  | l => parseUnsignedChars l

/-- One grid cell after comma-stripping and coercion: an entity absent
under a source key is a missing marker (`none`), and a cell that fails
coercion becomes `none` (NaN). -/
def coerceCell : Option String → Option ℚ
  | none => none
  | some s => to_numeric (stripCommas s)

/-- Append a name if it has not been seen yet (first-appearance union). -/
def addNew (acc : List String) (n : String) : List String :=
  if acc.contains n then acc else acc ++ [n]

/-- The row index of `pd.DataFrame(gdps)` for a dict of dicts: the union
of the inner dicts' keys in first-appearance order (pandas builds it via
`union_indexes(indexes, sort=False)`). -/
def dfIndex (gdps : List (String × List (String × String))) : List String :=
  gdps.foldl (fun acc st => st.2.foldl (fun a p => addNew a p.1) acc) []

/-- The coerced row of entity `e`: one `Option ℚ` per source column. -/
def entityCells (gdps : List (String × List (String × String))) (e : String) :
    List (Option ℚ) :=
  gdps.map (fun st => coerceCell (lookupD st.2 e))

/-- `dropna` keeps a row iff every cell coerced successfully. -/
def validEntity (gdps : List (String × List (String × String))) (e : String) : Bool :=
  (entityCells gdps e).all Option.isSome

/-- `numpy` rounding to the nearest integer, ties to the even integer
(`df.round(0)`), on the exact-rational model of the float grid. -/
def roundHalfEven (q : ℚ) : ℤ :=
  let n := ⌊q⌋
  let f := q - (n : ℚ)
  if f < 1 / 2 then n
  else if 1 / 2 < f then n + 1
  else if n % 2 = 0 then n else n + 1

/-- The transform output: integer values, row per entity, column per
source key. -/
structure TransformedTable where
  cols : List String
  rows : List (String × List ℤ)
deriving Repr, DecidableEq, Inhabited

/-- `transform_gdps(gdps, rates, currency)`: build the grid, strip
commas, coerce (`errors='coerce'`), drop rows with any NaN, look the
rate up (`rates[currency]`, a fatal `KeyError` when absent, modelled as
`none`), multiply and round half-to-even.  Cell values here follow the
exact-rational idealization of the grid arithmetic; the structural
behaviour (which rows survive, their order, the columns, when the stage
aborts) is independent of the value representation.  The value-faithful
float64/int64 cell path of the source is `transform_gdps_f64` below. -/
def transform_gdps (gdps : List (String × List (String × String)))
    (rates : List (String × ℚ)) (currency : String) : Option TransformedTable :=
  match lookupD rates currency with
  | none => none
  | some rate =>
      some { cols := gdps.map Prod.fst
             rows := ((dfIndex gdps).filter (fun e => validEntity gdps e)).map
               (fun e => (e, (entityCells gdps e).map
                 (fun o => roundHalfEven (o.getD 0 * rate)))) }

/-! ## The float64/int64 value path of the source

`df.iloc[:] * rate` multiplies in float64 (the int64-or-float64 column
produced by `pd.to_numeric` is promoted to float64 by the float scalar),
`df.round(0)` rounds half-to-even on the float64 grid, and
`.astype(int)` casts to int64 — the notebook's own comment on that line,
"vs. smallest signed int", records that an out-of-range cast lands on
INT64_MIN.  IEEE-754 binary64 is deterministic, so it embeds exactly:
a float64 value is the rational nearest to the real value among
multiples of `2 ^ (e - 52)` (53-bit significand, ties to even), and each
arithmetic step rounds its exact result. -/

/-- Structural-fuel floor of the base-2 logarithm (`log2Aux n n` is
enough fuel for any positive `n`). -/
def log2Aux : ℕ → ℕ → ℕ
  | 0, _ => 0
  | fuel + 1, n => if 2 ≤ n then log2Aux fuel (n / 2) + 1 else 0

/-- Floor of the base-2 logarithm of a positive natural. -/
def natLog2 (n : ℕ) : ℕ := log2Aux n n

/-- `2 ^ e` as a rational, for an integer exponent. -/
def twoZpow (e : ℤ) : ℚ :=
  if 0 ≤ e then ((2 ^ e.toNat : ℕ) : ℚ) else ((1 : ℚ) / ((2 ^ (-e).toNat : ℕ) : ℚ))

/-- Floor of the base-2 logarithm of a positive rational: the integer
estimate from numerator and denominator, corrected by direct
comparison (it is off by at most one). -/
def floorLog2 (q : ℚ) : ℤ :=
  let e0 : ℤ := (natLog2 q.num.natAbs : ℤ) - (natLog2 q.den : ℤ)
  if twoZpow (e0 + 1) ≤ q then e0 + 1
  else if twoZpow e0 ≤ q then e0
  else e0 - 1

/-- Round a positive rational to the nearest binary64 value: 53
significant bits, ties to even (the binade is found with `floorLog2`;
a round up to the next binade yields `2 ^ (e + 1)`, which is exactly
what the significand product then denotes). -/
def toFloat64Pos (a : ℚ) : ℚ :=
  let scale := floorLog2 a - 52
  ((roundHalfEven (a / twoZpow scale) : ℤ) : ℚ) * twoZpow scale

/-- Round a rational to the nearest IEEE-754 binary64 value
(round-to-nearest, ties-to-even), for magnitudes in the normal finite
range — the pipeline's data is far inside it. -/
def toFloat64 (q : ℚ) : ℚ :=
  if q = 0 then 0
  else if q < 0 then -toFloat64Pos (-q) else toFloat64Pos q

/-- IEEE-754 binary64 multiplication: the correctly rounded exact
product. -/
def fmul64 (x y : ℚ) : ℚ := toFloat64 (x * y)

/-- `.astype(int)` on an integral float64: the value itself when it fits
in int64, otherwise the wrapped result INT64_MIN (the notebook's
comment "vs. smallest signed int" on the `astype` line records this). -/
def toInt64 (n : ℤ) : ℤ :=
  if -(2 ^ 63) ≤ n ∧ n < 2 ^ 63 then n else -(2 ^ 63)

/-- The float64/int64 value a surviving cell stores: the coerced value
held as float64, multiplied by the float64 rate, rounded half-to-even by
`round(0)` and cast to int64 by `astype(int)`. -/
def storedCell (v rate : ℚ) : ℤ :=
  toInt64 (roundHalfEven (fmul64 (toFloat64 v) (toFloat64 rate)))

/-- `transform_gdps` with the float64/int64 cell-value path of the
source in place of the exact-rational idealization; the row and column
structure is the same. -/
def transform_gdps_f64 (gdps : List (String × List (String × String)))
    (rates : List (String × ℚ)) (currency : String) : Option TransformedTable :=
  match lookupD rates currency with
  | none => none
  | some rate =>
      some { cols := gdps.map Prod.fst
             rows := ((dfIndex gdps).filter (fun e => validEntity gdps e)).map
               (fun e => (e, (entityCells gdps e).map
                 (fun o => storedCell (o.getD 0) rate))) }

/-! ## Load: `load` (notebook cell 11) -/

/-- The two serialization formats the loader knows. -/
inductive FileKind
  | json
  | csv
deriving Repr, DecidableEq, Inhabited

/-- `load(df_transformed, wf_type)`: the file write it performs, if any.
The filename joiner is the lowercased module-level `currency`; an
unrecognized selector falls through both branches and writes nothing. -/
def load (currency : String) (df_transformed : TransformedTable)
    (wf_type : String) : Option (String × FileKind) :=
  if wf_type.toLower = "json" then
    some ("gdps_" ++ currency.toLower ++ ".json", FileKind.json)
  else if wf_type.toLower = "csv" then
    some ("gdps_" ++ currency.toLower ++ ".csv", FileKind.csv)
  else none

/-! ## Auxiliary predicates used by the specifications -/

/-- A qualifying row whose extracted entity name is `n`. -/
def matchesName (n : String) (r : HRow) : Bool := isDataRow r && (rowName r == n)

/-- The last qualifying row of `rows` whose entity name is `n`. -/
def lastMatch (rows : List HRow) (n : String) : Option HRow :=
  (rows.filter (matchesName n)).getLast?

/-! ## Concrete test fixtures (the end-to-end scenario of the spec) -/

/-- RawTable of the spec's end-to-end scenario: entity `X` is valid
under `IMF` but not under `WB`. -/
def exGdps : List (String × List (String × String)) :=
  [("WB", [("World", "87,798,526"), ("X", "N/A")]),
   ("IMF", [("World", "93,863,851"), ("X", "500")])]

/-- RateTable of the end-to-end scenario. -/
def exRates : List (String × ℚ) := [("GBP", 73 / 100)]

/-- A sub-table with a two-cell header row, a qualifying row, a second
qualifying row repeating the same entity, and a one-cell footer row. -/
def exBody : SubTable :=
  ⟨[⟨[⟨none, "Country"⟩, ⟨none, "GDP"⟩]⟩,
    ⟨[⟨none, "1"⟩, ⟨some " World ", "lnk"⟩, ⟨none, " 100 "⟩]⟩,
    ⟨[⟨none, "2"⟩, ⟨some "World", "lnk"⟩, ⟨none, "200"⟩]⟩,
    ⟨[⟨none, "footnote"⟩]⟩]⟩

/-- Module-level state holding `exBody` under acronym `WB`. -/
def exG : Globals := ⟨⟨[exBody]⟩, ["WB"]⟩

/-- The transform output of the end-to-end scenario. -/
def exTable : TransformedTable :=
  ⟨["WB", "IMF"], [("World", [64092924, 68520611])]⟩

end ETL

namespace ETL

/-! ## Dictionary lemmas -/

theorem lookupD_nil {α : Type} (k : String) : lookupD ([] : List (String × α)) k = none := rfl

theorem lookupD_cons {α : Type} (kv : String × α) (d : List (String × α)) (k : String) :
    lookupD (kv :: d) k = if kv.1 = k then some kv.2 else lookupD d k := by
  by_cases h : kv.1 = k
  · simp [lookupD, List.find?_cons, h]
  · simp [lookupD, List.find?_cons, h]

theorem lookupD_insertD {α : Type} (d : List (String × α)) (k k' : String) (v : α) :
    lookupD (insertD d k v) k' = if k' = k then some v else lookupD d k' := by
  induction d with
  | nil => simp [insertD, lookupD_cons, lookupD_nil, eq_comm]
  | cons kv rest ih =>
    by_cases hk : kv.1 = k
    · simp only [insertD, if_pos hk, lookupD_cons]
      rw [← hk]
      by_cases h : k' = kv.1 <;> simp [h, eq_comm]
    · simp only [insertD, if_neg hk, lookupD_cons, ih]
      by_cases hv : kv.1 = k'
      · have hne : ¬ k' = k := fun e => hk (hv.trans e)
        simp [hv, hne]
      · simp [hv]

theorem lookupD_isSome {α : Type} (d : List (String × α)) (k : String) :
    (lookupD d k).isSome = true ↔ k ∈ d.map Prod.fst := by
  induction d with
  | nil => simp [lookupD_nil]
  | cons kv rest ih =>
    rw [lookupD_cons, List.map_cons, List.mem_cons]
    by_cases h : kv.1 = k
    · simp [h, eq_comm]
    · have h' : ¬ k = kv.1 := fun e => h e.symm
      simp only [if_neg h, ih, h', false_or]

theorem insertD_of_not_mem {α : Type} {d : List (String × α)} {k : String} (v : α)
    (h : k ∉ d.map Prod.fst) : insertD d k v = d ++ [(k, v)] := by
  induction d with
  | nil => rfl
  | cons kv rest ih =>
    simp only [List.map_cons, List.mem_cons, not_or] at h
    rw [insertD, if_neg (fun e => h.1 e.symm), ih h.2, List.cons_append]

theorem mem_insertD {α : Type} {p : String × α} {d : List (String × α)}
    {k : String} {v : α} (h : p ∈ insertD d k v) : p ∈ d ∨ p = (k, v) := by
  induction d with
  | nil => simpa [insertD] using h
  | cons kv rest ih =>
    by_cases hk : kv.1 = k
    · rw [insertD, if_pos hk] at h
      rcases List.mem_cons.mp h with rfl | h
      · exact Or.inr rfl
      · exact Or.inl (List.mem_cons_of_mem _ h)
    · rw [insertD, if_neg hk] at h
      rcases List.mem_cons.mp h with rfl | h
      · exact Or.inl (List.mem_cons_self _ _)
      · rcases ih h with h | h
        · exact Or.inl (List.mem_cons_of_mem _ h)
        · exact Or.inr h

/-! ## Rate-normalization lemmas -/

theorem mem_rates_foldl (quotes : List (String × ℚ)) :
    ∀ (acc : List (String × ℚ)) (p : String × ℚ),
      p ∈ quotes.foldl (fun a kv => insertD a (stripUSD kv.1) kv.2) acc →
      p ∈ acc ∨ ∃ kv ∈ quotes, p = (stripUSD kv.1, kv.2) := by
  induction quotes with
  | nil => exact fun acc p h => Or.inl h
  | cons kv rest ih =>
    intro acc p h
    rcases ih _ p h with hacc | ⟨kv', hkv', rfl⟩
    · rcases mem_insertD hacc with h1 | h1
      · exact Or.inl h1
      · exact Or.inr ⟨kv, List.mem_cons_self _ _, h1⟩
    · exact Or.inr ⟨kv', List.mem_cons_of_mem _ hkv', rfl⟩

theorem rates_foldl_eq_append (quotes : List (String × ℚ)) :
    ∀ acc : List (String × ℚ),
      (∀ kv ∈ quotes, stripUSD kv.1 ∉ acc.map Prod.fst) →
      (quotes.map (fun kv => stripUSD kv.1)).Nodup →
      quotes.foldl (fun a kv => insertD a (stripUSD kv.1) kv.2) acc
        = acc ++ quotes.map (fun kv => (stripUSD kv.1, kv.2)) := by
  induction quotes with
  | nil => simp
  | cons kv rest ih =>
    intro acc hd hn
    simp only [List.map_cons, List.nodup_cons] at hn
    simp only [List.foldl_cons]
    rw [insertD_of_not_mem _ (hd kv (List.mem_cons_self _ _))]
    rw [ih (acc ++ [(stripUSD kv.1, kv.2)]) ?_ hn.2]
    · simp
    · intro kv' h'
      simp only [List.map_append, List.mem_append, List.map_cons, List.map_nil,
        List.mem_singleton, not_or]
      refine ⟨hd kv' (List.mem_cons_of_mem _ h'), fun e => ?_⟩
      exact hn.1 (e ▸ List.mem_map_of_mem (fun kv => stripUSD kv.1) h')

/-- C4: rate normalization strips exactly one leading USD from a key
that carries it, passes any other key through unchanged, and passes
every value through unchanged (the normalized mapping is the image of
the raw one under key-stripping; with collision-free normalized keys it
is exactly the entrywise image). -/
theorem rate_key_normalization :
    (∀ rest : List Char, stripUSDChars ('U' :: 'S' :: 'D' :: rest) = rest) ∧
    (∀ l : List Char, l.take 3 ≠ ['U', 'S', 'D'] → stripUSDChars l = l) ∧
    stripUSD "USDGBP" = "GBP" ∧
    stripUSD "EURJPY" = "EURJPY" ∧
    (∀ quotes : List (String × ℚ), ∀ p ∈ get_exchange_rates quotes,
      ∃ kv ∈ quotes, p = (stripUSD kv.1, kv.2)) ∧
    (∀ quotes : List (String × ℚ),
      (quotes.map (fun kv => stripUSD kv.1)).Nodup →
      get_exchange_rates quotes = quotes.map (fun kv => (stripUSD kv.1, kv.2))) := by
  refine ⟨fun rest => ?_, fun l h => ?_, by decide, by decide, fun quotes p hp => ?_, fun quotes hn => ?_⟩
  · simp [stripUSDChars]
  · rw [stripUSDChars, if_neg h]
  · rcases mem_rates_foldl quotes [] p hp with h | h
    · simp at h
    · exact h
  · rw [get_exchange_rates, rates_foldl_eq_append quotes [] (by simp) hn, List.nil_append]

theorem rate_key_normalization_witness :
    stripUSDChars ("EURJPY".data) = "EURJPY".data ∧
    get_exchange_rates [("USDGBP", 73 / 100), ("EURJPY", 2)]
      = [("GBP", 73 / 100), ("EURJPY", 2)] := by
  constructor
  · exact rate_key_normalization.2.1 "EURJPY".data (by decide)
  · have h := rate_key_normalization.2.2.2.2.2
      [("USDGBP", 73 / 100), ("EURJPY", 2)] (by decide)
    rw [h]
    with_unfolding_all rfl

/-! ## KeyDeriver lemmas -/

theorem wordsAux_ne_nil (l : List Char) : ∀ cur w, w ∈ wordsAux l cur → w ≠ [] := by
  induction l with
  | nil =>
    intro cur w hw
    by_cases h : cur.isEmpty
    · simp [wordsAux, h] at hw
    · simp only [wordsAux, h, Bool.false_eq_true, if_false, List.mem_singleton] at hw
      subst hw
      simpa [List.isEmpty_iff] using h
  | cons c rest ih =>
    intro cur w hw
    by_cases hws : c.isWhitespace
    · by_cases h : cur.isEmpty
      · rw [wordsAux, if_pos hws, if_pos h] at hw
        exact ih [] w hw
      · rw [wordsAux, if_pos hws, if_neg h] at hw
        rcases List.mem_cons.mp hw with rfl | hw
        · simpa [List.isEmpty_iff] using h
        · exact ih [] w hw
    · rw [wordsAux, if_neg hws] at hw
      exact ih (c :: cur) w hw

/-- C5: the derived source key is the ordered concatenation of the first
character of each whitespace-separated word of the label, case
preserved, so its length equals the word count; an empty label gives
the empty key. -/
theorem derive_key_acronym :
    (∀ agency : String, (get_acronym agency).length = (words agency.data).length) ∧
    (∀ agency : String,
      (get_acronym agency).data = (words agency.data).map (fun w => w.headD ' ')) ∧
    (∀ agency : String, ∀ w ∈ words agency.data, w ≠ []) ∧
    get_acronym "" = "" ∧
    get_acronym "World Bank" = "WB" ∧
    get_acronym "International Monetary Fund" = "IMF" := by
  refine ⟨fun a => ?_, fun a => rfl, fun a w hw => wordsAux_ne_nil a.data [] w hw,
    by decide, by decide, by decide⟩
  show ((words a.data).map (fun w => w.headD ' ')).length = (words a.data).length
  exact List.length_map _ _

/-! ## Claims on the extractor and loader -/

/-- C9: get_gdps never reads its htmltext parameter; two calls differing
only in that argument return the same result, because the function
operates on the module-level globals gdptablestext and acronyms alone. -/
theorem get_gdps_ignores_htmltext (g : Globals) (h1 h2 acronym : String) :
    get_gdps g h1 acronym = get_gdps g h2 acronym := rfl

/-- C7: the transform fails, producing no TransformedTable at all, exactly
when the target currency is absent from the RateTable; when the key is
present the lookup succeeds and a table is produced (the failure is fatal
to the whole stage, with no per-row recovery). -/
theorem transform_rate_lookup_fatal (gdps : List (String × List (String × String)))
    (rates : List (String × ℚ)) (currency : String) :
    (transform_gdps gdps rates currency = none ↔ lookupD rates currency = none) ∧
    ((transform_gdps gdps rates currency).isSome ↔ (lookupD rates currency).isSome) := by
  unfold transform_gdps
  cases lookupD rates currency <;> simp

/-- C10: a format selector whose lowercase form is neither json nor csv
makes load return normally having written nothing (no error raised), and
the selector comparison is case-insensitive. -/
theorem load_unrecognized_selector (currency : String) (df : TransformedTable) :
    (∀ wf : String, wf.toLower ≠ "json" → wf.toLower ≠ "csv" →
      load currency df wf = none) ∧
    load currency df "JSON" = load currency df "json" ∧
    load currency df "CSV" = load currency df "csv" ∧
    load currency df "Xml" = none := by
  have hJ : "JSON".toLower = "json" := by with_unfolding_all decide
  have hj : "json".toLower = "json" := by with_unfolding_all decide
  have hC : "CSV".toLower = "csv" := by with_unfolding_all decide
  have hc : "csv".toLower = "csv" := by with_unfolding_all decide
  have hX : "Xml".toLower = "xml" := by with_unfolding_all decide
  refine ⟨fun wf h1 h2 => ?_, ?_, ?_, ?_⟩
  · simp [load, h1, h2]
  · simp [load, hJ, hj]
  · simp [load, hC, hc]
  · simp [load, hX]

theorem load_unrecognized_selector_witness :
    load "GBP" exTable "txt" = none :=
  (load_unrecognized_selector "GBP" exTable).1 "txt"
    (by with_unfolding_all decide) (by with_unfolding_all decide)

end ETL

namespace ETL

/-! ## Extractor lemmas: last-write-wins fold -/

theorem lookupD_extract_fold (rows : List HRow) :
    ∀ (d : List (String × String)) (n : String),
      lookupD (rows.foldl
        (fun d r => if isDataRow r then insertD d (rowName r) (rowValue r) else d) d) n
      = ((rows.filter (matchesName n)).getLast?).elim (lookupD d n)
          (fun r => some (rowValue r)) := by
  induction rows with
  | nil => intro d n; rfl
  | cons r rest ih =>
    intro d n
    by_cases hd : isDataRow r
    · by_cases hn : rowName r = n
      · have hm : matchesName n r = true := by
          simp [matchesName, hd, hn]
        rw [List.foldl_cons, if_pos hd, ih, List.filter_cons_of_pos hm,
          List.getLast?_cons]
        cases hl : (rest.filter (matchesName n)).getLast? with
        | none => simp [hl, Option.elim, lookupD_insertD, hn]
        | some r' => simp [hl, Option.elim]
      · have hm : matchesName n r = false := by
          simp [matchesName, hn]
        rw [List.foldl_cons, if_pos hd, ih, List.filter_cons_of_neg (by simp [hm]),
          lookupD_insertD]
        rw [if_neg (fun e => hn e.symm)]
    · have hm : matchesName n r = false := by
        simp [matchesName, hd]
      rw [List.foldl_cons, if_neg hd, ih, List.filter_cons_of_neg (by simp [hm])]

theorem lookupD_extractBody (body : SubTable) (n : String) :
    lookupD (extractBody body) n = (lastMatch body.rows n).map rowValue := by
  rw [extractBody, lastMatch, lookupD_extract_fold body.rows [] n, lookupD_nil]
  cases (body.rows.filter (matchesName n)).getLast? <;> rfl

/-- C8: a row of a sub-table contributes an entry to the per-source
mapping iff it has exactly three td cells; a row of any other cell count
is silently skipped, contributing no entry and raising no error; the
extracted name and value are the whitespace-trimmed cell texts
(rowName, rowValue), and when an entity name repeats, the value of the
last qualifying row with that name wins. -/
theorem get_gdps_row_selection (g : Globals) (htmltext acronym : String)
    (idx : ℕ) (body : SubTable)
    (hidx : g.acronyms.findIdx? (fun x => x == acronym) = some idx)
    (hbody : g.gdptablestext.bodies[idx]? = some body)
    (hsafe : body.rows.all rowSafe = true) :
    get_gdps g htmltext acronym = some (extractBody body) ∧
    (∀ n : String, (lookupD (extractBody body) n).isSome = true ↔
      ∃ r ∈ body.rows, isDataRow r = true ∧ rowName r = n) ∧
    (∀ n : String,
      lookupD (extractBody body) n = (lastMatch body.rows n).map rowValue) := by
  refine ⟨?_, fun n => ?_, fun n => lookupD_extractBody body n⟩
  · simp [get_gdps, hidx, hbody, hsafe]
    exact List.all_eq_true.mp hsafe
  · rw [lookupD_extractBody, lastMatch]
    constructor
    · intro h
      have hne : body.rows.filter (matchesName n) ≠ [] := by
        intro hnil
        rw [hnil] at h
        simp at h
      obtain ⟨r, hr⟩ := List.exists_mem_of_ne_nil _ hne
      have hm := List.mem_filter.mp hr
      have hmm : isDataRow r = true ∧ rowName r = n := by
        have := hm.2
        rw [matchesName, Bool.and_eq_true, beq_iff_eq] at this
        exact this
      exact ⟨r, hm.1, hmm.1, hmm.2⟩
    · rintro ⟨r, hr, hd, hn⟩
      have hmem : r ∈ body.rows.filter (matchesName n) :=
        List.mem_filter.mpr ⟨hr, by simp [matchesName, hd, hn]⟩
      cases hl : (body.rows.filter (matchesName n)).getLast? with
      | none =>
        rw [List.getLast?_eq_none_iff] at hl
        rw [hl] at hmem
        simp at hmem
      | some r' => simp [hl]

theorem get_gdps_row_selection_witness :
    get_gdps exG "page one" "WB" = some (extractBody exBody) ∧
    lookupD (extractBody exBody) "World" = some "200" := by
  have h := get_gdps_row_selection exG "page one" "WB" 0 exBody
    (by decide) (by decide) (by decide)
  refine ⟨h.1, ?_⟩
  rw [h.2.2 "World"]
  with_unfolding_all decide

end ETL

namespace ETL

/-! ## Index and transform-structure lemmas -/

theorem mem_addNew (acc : List String) (m n : String) :
    n ∈ addNew acc m ↔ n ∈ acc ∨ n = m := by
  rw [addNew]
  by_cases h : acc.contains m
  · rw [if_pos h]
    have hm : m ∈ acc := List.mem_of_elem_eq_true h
    constructor
    · exact Or.inl
    · rintro (h1 | rfl)
      · exact h1
      · exact hm
  · rw [if_neg h]
    simp [List.mem_append]

theorem mem_foldl_addNew (l : List (String × String)) :
    ∀ (acc : List String) (n : String),
      n ∈ l.foldl (fun a p => addNew a p.1) acc ↔ n ∈ acc ∨ n ∈ l.map Prod.fst := by
  induction l with
  | nil => simp
  | cons p rest ih =>
    intro acc n
    rw [List.foldl_cons, ih, mem_addNew]
    simp only [List.map_cons, List.mem_cons]
    tauto

theorem mem_dfIndex_gen (gdps : List (String × List (String × String))) :
    ∀ (acc : List String) (n : String),
      n ∈ gdps.foldl (fun acc st => st.2.foldl (fun a p => addNew a p.1) acc) acc ↔
      n ∈ acc ∨ ∃ st ∈ gdps, n ∈ st.2.map Prod.fst := by
  induction gdps with
  | nil => simp
  | cons st rest ih =>
    intro acc n
    rw [List.foldl_cons, ih, mem_foldl_addNew]
    simp only [List.mem_cons]
    constructor
    · rintro ((h | h) | ⟨st', hst', h⟩)
      · exact Or.inl h
      · exact Or.inr ⟨st, Or.inl rfl, h⟩
      · exact Or.inr ⟨st', Or.inr hst', h⟩
    · rintro (h | ⟨st', (rfl | hst'), h⟩)
      · exact Or.inl (Or.inl h)
      · exact Or.inl (Or.inr h)
      · exact Or.inr ⟨st', hst', h⟩

theorem mem_dfIndex (gdps : List (String × List (String × String))) (n : String) :
    n ∈ dfIndex gdps ↔ ∃ st ∈ gdps, n ∈ st.2.map Prod.fst := by
  rw [dfIndex, mem_dfIndex_gen]
  simp

theorem transform_gdps_eq (gdps : List (String × List (String × String)))
    (rates : List (String × ℚ)) (currency : String) (rate : ℚ)
    (hr : lookupD rates currency = some rate) :
    transform_gdps gdps rates currency =
      some ⟨gdps.map Prod.fst,
        ((dfIndex gdps).filter (fun e => validEntity gdps e)).map
          (fun e => (e, (entityCells gdps e).map
            (fun o => roundHalfEven (o.getD 0 * rate))))⟩ := by
  simp [transform_gdps, hr]

theorem transform_rows_names (gdps : List (String × List (String × String)))
    (rates : List (String × ℚ)) (currency : String) (t : TransformedTable)
    (ht : transform_gdps gdps rates currency = some t) :
    t.rows.map Prod.fst = (dfIndex gdps).filter (fun e => validEntity gdps e) ∧
    t.cols = gdps.map Prod.fst ∧
    ∃ rate, lookupD rates currency = some rate ∧
      t.rows = ((dfIndex gdps).filter (fun e => validEntity gdps e)).map
        (fun e => (e, (entityCells gdps e).map
          (fun o => roundHalfEven (o.getD 0 * rate)))) := by
  cases hr : lookupD rates currency with
  | none =>
    rw [transform_gdps, hr] at ht
    exact absurd ht (by simp)
  | some rate =>
    rw [transform_gdps_eq gdps rates currency rate hr] at ht
    injection ht with ht
    subst ht
    refine ⟨?_, rfl, rate, rfl, rfl⟩
    rw [List.map_map]
    simp [Function.comp_def]

end ETL

namespace ETL

/-! ## Rounding lemmas -/

theorem roundHalfEven_nearest (q : ℚ) : |q - (roundHalfEven q : ℚ)| ≤ 1 / 2 := by
  have h0 : (⌊q⌋ : ℚ) ≤ q := Int.floor_le q
  have h1 : q < ⌊q⌋ + 1 := Int.lt_floor_add_one q
  simp only [roundHalfEven]
  split_ifs with hf1 hf2 hpar
  · rw [abs_of_nonneg (by linarith)]
    linarith
  · rw [abs_of_nonpos (by push_cast; linarith)]
    push_cast
    linarith
  · rw [abs_of_nonneg (by linarith)]
    linarith
  · rw [abs_of_nonpos (by push_cast; linarith)]
    push_cast
    linarith

theorem roundHalfEven_tie_even (q : ℚ)
    (h : |q - (roundHalfEven q : ℚ)| = 1 / 2) : roundHalfEven q % 2 = 0 := by
  have h0 : (⌊q⌋ : ℚ) ≤ q := Int.floor_le q
  have h1 : q < ⌊q⌋ + 1 := Int.lt_floor_add_one q
  simp only [roundHalfEven] at h ⊢
  split_ifs at h ⊢ with hf1 hf2 hpar
  · rw [abs_of_nonneg (by linarith)] at h
    linarith
  · rw [abs_of_nonpos (by push_cast; linarith)] at h
    push_cast at h
    linarith
  · exact hpar
  · omega

theorem roundHalfEven_big1 :
    roundHalfEven ((87798526 : ℚ) * (73 / 100)) = 64092924 := by
  with_unfolding_all decide

theorem roundHalfEven_big2 :
    roundHalfEven ((93863851 : ℚ) * (73 / 100)) = 68520611 := by
  with_unfolding_all decide

/-- Evaluation of the end-to-end scenario of the spec: only World
survives, and its two cells are the rounded converted values. -/
theorem exTransform_eval : transform_gdps exGdps exRates "GBP" = some exTable := by
  have base : transform_gdps exGdps exRates "GBP" =
      some ⟨["WB", "IMF"], [("World",
        [roundHalfEven ((87798526 : ℚ) * (73 / 100)),
         roundHalfEven ((93863851 : ℚ) * (73 / 100))])]⟩ := rfl
  rw [base, roundHalfEven_big1, roundHalfEven_big2]
  rfl

end ETL

namespace ETL

/-! ## Claims on the numeric transform -/

/-- C1: the transform drops an entity row exactly when some cell under
some source key is missing or fails coercion; an entity with a valid
numeral under every source key appears in the output, and one valid
under only part of the source keys does not. -/
theorem transform_row_filtering (gdps : List (String × List (String × String)))
    (rates : List (String × ℚ)) (currency : String) (t : TransformedTable)
    (ht : transform_gdps gdps rates currency = some t) :
    (∀ e, e ∈ t.rows.map Prod.fst ↔
      (e ∈ dfIndex gdps ∧ validEntity gdps e = true)) ∧
    (∀ e, gdps ≠ [] → validEntity gdps e = true → e ∈ t.rows.map Prod.fst) := by
  have hnames := (transform_rows_names gdps rates currency t ht).1
  refine ⟨fun e => ?_, fun e hne hv => ?_⟩
  · rw [hnames]
    exact List.mem_filter
  · rw [hnames]
    refine List.mem_filter.mpr ⟨?_, hv⟩
    rcases gdps with _ | ⟨st, rest⟩
    · exact absurd rfl hne
    · have h1 : (coerceCell (lookupD st.2 e)).isSome = true :=
        List.all_eq_true.mp hv _ (by simp [entityCells])
      have h2 : (lookupD st.2 e).isSome = true := by
        cases hl : lookupD st.2 e with
        | none => rw [hl] at h1; exact absurd h1 (by simp [coerceCell])
        | some s => rfl
      rw [mem_dfIndex]
      exact ⟨st, List.mem_cons_self _ _, (lookupD_isSome _ _).mp h2⟩

theorem transform_row_filtering_witness :
    "World" ∈ exTable.rows.map Prod.fst ∧ "X" ∉ exTable.rows.map Prod.fst := by
  have h := transform_row_filtering exGdps exRates "GBP" exTable exTransform_eval
  constructor
  · exact (h.1 "World").mpr ⟨by decide, by decide⟩
  · intro hx
    have hv := ((h.1 "X").mp hx).2
    rw [show validEntity exGdps "X" = false from by decide] at hv
    exact Bool.false_ne_true hv

/-- C2: every comma is removed from a cell text, wherever it occurs,
before coercion, so a comma-grouped numeral coerces to its exact value,
while a string with letters is marked invalid (not raised) and its row
is dropped from the output. -/
theorem transform_comma_stripping :
    (∀ s : String, (stripCommas s).data = s.data.filter (fun c => c != ',')) ∧
    (∀ s : String, ',' ∉ (stripCommas s).data) ∧
    to_numeric (stripCommas "1,234,567") = some (1234567 : ℚ) ∧
    to_numeric (stripCommas "N/A") = none ∧
    (∀ gdps rates currency t st e,
      transform_gdps gdps rates currency = some t → st ∈ gdps →
      lookupD st.2 e = some "N/A" → e ∉ t.rows.map Prod.fst) := by
  refine ⟨fun s => rfl, fun s hc => ?_, by decide, by decide, ?_⟩
  · have h := (List.mem_filter.mp hc).2
    simp at h
  · intro gdps rates currency t st e ht hst hl hmem
    have hnames := (transform_rows_names gdps rates currency t ht).1
    rw [hnames] at hmem
    have hv := (List.mem_filter.mp hmem).2
    have h1 : (coerceCell (lookupD st.2 e)).isSome = true :=
      List.all_eq_true.mp hv _ (List.mem_map_of_mem _ hst)
    rw [hl, show coerceCell (some "N/A") = none from by decide] at h1
    exact absurd h1 (by simp)

theorem transform_comma_stripping_witness :
    ',' ∉ (stripCommas "1,234,567").data ∧ "X" ∉ exTable.rows.map Prod.fst := by
  constructor
  · exact transform_comma_stripping.2.1 "1,234,567"
  · exact transform_comma_stripping.2.2.2.2 exGdps exRates "GBP" exTable
      ("WB", [("World", "87,798,526"), ("X", "N/A")]) "X"
      exTransform_eval (by decide) (by decide)

/-! ## Claim C3: the float64/int64 value path -/

theorem transform_f64_eq (gdps : List (String × List (String × String)))
    (rates : List (String × ℚ)) (currency : String) (rate : ℚ)
    (hr : lookupD rates currency = some rate) :
    transform_gdps_f64 gdps rates currency =
      some ⟨gdps.map Prod.fst,
        ((dfIndex gdps).filter (fun e => validEntity gdps e)).map
          (fun e => (e, (entityCells gdps e).map
            (fun o => storedCell (o.getD 0) rate)))⟩ := by
  simp [transform_gdps_f64, hr]

theorem transform_f64_rows (gdps : List (String × List (String × String)))
    (rates : List (String × ℚ)) (currency : String) (t : TransformedTable)
    (ht : transform_gdps_f64 gdps rates currency = some t) :
    ∃ rate, lookupD rates currency = some rate ∧
      t.rows = ((dfIndex gdps).filter (fun e => validEntity gdps e)).map
        (fun e => (e, (entityCells gdps e).map
          (fun o => storedCell (o.getD 0) rate))) := by
  cases hr : lookupD rates currency with
  | none =>
    rw [transform_gdps_f64, hr] at ht
    exact absurd ht (by simp)
  | some rate =>
    rw [transform_f64_eq gdps rates currency rate hr] at ht
    injection ht with ht
    subst ht
    exact ⟨rate, rfl, rfl⟩

set_option maxRecDepth 2000 in
theorem storedCell_spec_example : storedCell (21433226 : ℚ) (73 / 100) = 15646255 := by
  with_unfolding_all decide

set_option maxRecDepth 2000 in
theorem storedCell_wb : storedCell (87798526 : ℚ) (73 / 100) = 64092924 := by
  with_unfolding_all decide

set_option maxRecDepth 2000 in
theorem storedCell_imf : storedCell (93863851 : ℚ) (73 / 100) = 68520611 := by
  with_unfolding_all decide

set_option maxRecDepth 2000 in
theorem storedCell_big : storedCell (9007199254740993 : ℚ) 1 = 9007199254740992 := by
  with_unfolding_all decide

set_option maxRecDepth 2000 in
theorem storedCell_wrap :
    storedCell (10000000000000000000000 : ℚ) 1 = -(2 ^ 63) := by
  with_unfolding_all decide

theorem exTransform_f64_eval :
    transform_gdps_f64 exGdps exRates "GBP" = some exTable := by
  have base : transform_gdps_f64 exGdps exRates "GBP" =
      some ⟨["WB", "IMF"], [("World",
        [storedCell (87798526 : ℚ) (73 / 100),
         storedCell (93863851 : ℚ) (73 / 100)])]⟩ := rfl
  rw [base, storedCell_wb, storedCell_imf]
  rfl

/-- C3, counterexample to the claim as stated: under the float64/int64
value path of the source, the cell 9007199254740993 (that is, 2^53 + 1)
at rate 1 is stored as 9007199254740992, while the exact
round(9007199254740993 * 1) is 9007199254740993 — above 2^53 the float64
grid no longer carries the exact product, so the stored value is not
round(v * rate). -/
theorem transform_rounding_cex :
    transform_gdps_f64 [("WB", [("Big", "9,007,199,254,740,993")])]
        [("GBP", 1)] "GBP"
      = some ⟨["WB"], [("Big", [9007199254740992])]⟩ ∧
    roundHalfEven ((9007199254740993 : ℚ) * 1) = 9007199254740993 ∧
    (9007199254740992 : ℤ) ≠ roundHalfEven ((9007199254740993 : ℚ) * 1) := by
  have hround : roundHalfEven ((9007199254740993 : ℚ) * 1) = 9007199254740993 := by
    with_unfolding_all decide
  have base : transform_gdps_f64 [("WB", [("Big", "9,007,199,254,740,993")])]
      [("GBP", 1)] "GBP"
      = some ⟨["WB"], [("Big", [storedCell (9007199254740993 : ℚ) 1])]⟩ := rfl
  refine ⟨by rw [base, storedCell_big], hround, ?_⟩
  rw [hround]
  decide

/-- C3 (amended): each surviving cell stores, as an exact integer in the
int64 range, the half-to-even rounding of the float64 product of the
float64 representations of its coerced value and the selected rate,
wrapped to INT64_MIN when the rounded product leaves the int64 range;
the rounding is to the nearest value with ties to the even integer, and
at the spec's example the stored value agrees with the exact
round(21433226 * 0.73) = 15646255. -/
theorem transform_rounding_f64 :
    (∀ q : ℚ, |q - (roundHalfEven q : ℚ)| ≤ 1 / 2) ∧
    (∀ q : ℚ, |q - (roundHalfEven q : ℚ)| = 1 / 2 → roundHalfEven q % 2 = 0) ∧
    (∀ v rate : ℚ, -(2 ^ 63) ≤ storedCell v rate ∧ storedCell v rate < 2 ^ 63) ∧
    storedCell (21433226 : ℚ) (73 / 100) = 15646255 ∧
    roundHalfEven ((21433226 : ℚ) * (73 / 100)) = 15646255 ∧
    storedCell (10000000000000000000000 : ℚ) 1 = -(2 ^ 63) ∧
    (∀ gdps rates currency t rate,
      transform_gdps_f64 gdps rates currency = some t →
      lookupD rates currency = some rate →
      ∀ p ∈ t.rows, p.2 = (entityCells gdps p.1).map
        (fun o => storedCell (o.getD 0) rate)) := by
  refine ⟨roundHalfEven_nearest, roundHalfEven_tie_even, fun v rate => ?_,
    storedCell_spec_example, by with_unfolding_all decide, storedCell_wrap, ?_⟩
  · rw [storedCell, toInt64]
    split_ifs with h
    · exact h
    · norm_num
  · intro gdps rates currency t rate ht hr p hp
    obtain ⟨rate', hr', hrows⟩ := transform_f64_rows gdps rates currency t ht
    rw [hr] at hr'
    injection hr' with hr'
    subst hr'
    rw [hrows] at hp
    obtain ⟨e, -, rfl⟩ := List.mem_map.mp hp
    rfl

theorem transform_rounding_f64_witness :
    ([64092924, 68520611] : List ℤ) =
      (entityCells exGdps "World").map
        (fun o => storedCell (o.getD 0) (73 / 100)) := by
  exact transform_rounding_f64.2.2.2.2.2.2 exGdps exRates "GBP" exTable (73 / 100)
    exTransform_f64_eval rfl ("World", [64092924, 68520611]) (by decide)

/-- C6: the surviving rows keep their relative order: the row names are
exactly the first-appearance index of the RawTable restricted to the
entities that survive filtering, hence a sublist of that index. -/
theorem transform_row_order (gdps : List (String × List (String × String)))
    (rates : List (String × ℚ)) (currency : String) (t : TransformedTable)
    (ht : transform_gdps gdps rates currency = some t) :
    t.rows.map Prod.fst = (dfIndex gdps).filter (fun e => validEntity gdps e) ∧
    (t.rows.map Prod.fst).Sublist (dfIndex gdps) := by
  have h := (transform_rows_names gdps rates currency t ht).1
  exact ⟨h, h ▸ List.filter_sublist _⟩

theorem transform_row_order_witness :
    exTable.rows.map Prod.fst
      = (dfIndex exGdps).filter (fun e => validEntity exGdps e) :=
  (transform_row_order exGdps exRates "GBP" exTable exTransform_eval).1

end ETL

namespace ETL

theorem derive_key_acronym_witness :
    (get_acronym "World Bank").length = (words "World Bank".data).length ∧
    ['W', 'o', 'r', 'l', 'd'] ≠ ([] : List Char) := by
  refine ⟨derive_key_acronym.1 "World Bank", ?_⟩
  exact derive_key_acronym.2.2.1 "World Bank" ['W', 'o', 'r', 'l', 'd'] (by decide)

end ETL
